import Mathlib

/-!
Verification of the budgeting, streaming and error-handling logic of
llm-commit-msg (src/llm_commit_msg/generate.py and main.py).

The Python code is shallowly embedded: Python str values become Lean
String values, Python lists become Lean List, bytes lines are modelled
after decoding, and the external collaborators (git, unidiff, json,
requests) are modelled as parameters supplying their observable outputs.
Python string builtins used by the code are embedded at the character
level so that every definition is executable and kernel-reducible:

  - len(s)                 is String.length (number of scalar values);
  - s[:k]                  is pyTake;
  - s.strip()              is pyStrip;
  - sep.join(l)            is pyJoin;
  - s.split(c)             is splitLines (single newline separator);
  - s.startswith(p)        is pyStartsWith;
  - s.removeprefix(p)      is pyRemovePrefix;
  - s.replace(nl, nlHash)  is commentize (single-character needle).
-/

set_option maxRecDepth 100000

namespace LlmCommitMsg

/-! ## Python string primitives -/

/-- Python slice from the start: s[:k]. -/
def pyTake (s : String) (k : Nat) : String :=
  String.mk (s.data.take k)

/-- Python str.strip: drop leading and trailing whitespace. -/
def pyStrip (s : String) : String :=
  String.mk (((s.data.dropWhile Char.isWhitespace).reverse.dropWhile
      Char.isWhitespace).reverse)

/-- Python sep.join(parts). -/
def pyJoin (sep : String) : List String → String
  | [] => ""
  | [x] => x
  | x :: y :: xs => x ++ sep ++ pyJoin sep (y :: xs)

/-- Character-level worker for Python str.split on a single newline:
splitting the empty text yields one empty piece, exactly as in Python. -/
def splitChars : List Char → List (List Char)
  | [] => [[]]
  | c :: rest =>
    match splitChars rest with
    | [] => [[]]
    | h :: t => if c = '\n' then [] :: h :: t else (c :: h) :: t

/-- Python s.split on a single newline character. -/
def splitLines (s : String) : List String :=
  (splitChars s.data).map String.mk

/-- Python l[-k:] for a list. Python slicing with k = 0 yields the whole
list, not the empty one; the embedding keeps that corner case. -/
def pyTakeLast (k : Nat) (l : List α) : List α :=
  if k = 0 then l else l.drop (l.length - k)

/-- Python p.isPrefixOf-style test: s.startswith(pre). -/
def pyStartsWith (pre s : String) : Bool :=
  pre.data.isPrefixOf s.data

/-- Python s.endswith(suf), used only to state properties of output. -/
def pyEndsWith (suf s : String) : Bool :=
  suf.data.isSuffixOf s.data

/-- Python s.removeprefix(pre). -/
def pyRemovePrefix (pre s : String) : String :=
  if pyStartsWith pre s then String.mk (s.data.drop pre.data.length) else s

/-- Character-level worker for the one replacement the code performs,
Python s.replace of a newline by newline-then-hash. -/
def commentChars : List Char → List Char
  | [] => []
  | c :: rest =>
    if c = '\n' then c :: '#' :: commentChars rest else c :: commentChars rest

/-! ## Constants (generate.py lines 15-21) -/

def MAX_TOKENS : Nat := 2 ^ 16
def MAX_STAGED_DIFF_CONTEXT : Nat := 9
def MAX_STAGED_DIFF_CHARS : Nat := 80 * 512
def MAX_STAGED_FILES : Nat := 48
def MAX_STAGED_FILES_CHARS : Nat := 80 * MAX_STAGED_FILES
def MAX_LOOKBACK_COMMITS : Nat := 10
def MAX_LOOKBACK_CHARS : Nat := 80 * 10 * MAX_LOOKBACK_COMMITS

/-! ## The truncation helper (generate.py lines 28-31) -/

/-- Embedding of the helper that cuts a string to a budget: if the length
is strictly below the budget the string is returned unchanged, otherwise
the first budget minus three characters are kept and an ellipsis marker
is appended. -/
def truncate (s : String) (maxLen : Nat) : String :=
  if s.length < maxLen then s else pyTake s (maxLen - 3) ++ "..."

/-! ## API key resolution (generate.py lines 132-140)

The token file is modelled by its contents (read_text output) and the
environment variable by an Option String, with getenv returning none when
the variable is unset.  A raised RuntimeError becomes Except.error. -/

def apiKeyErrorMsg : String :=
  "OPENAI_API_KEY not set, --api-token-file not provided"

def getApiKey (apiTokenFile : Option String) (env : Option String) :
    Except String String :=
  match apiTokenFile with
  | none =>
    match env with
    | none => .error apiKeyErrorMsg
    | some r => if r = "" then .error apiKeyErrorMsg else .ok r
  | some contents => .ok (pyStrip contents)

/-! ## Keyword binding of the CLI command (main.py lines 40-54)

The generate command handler forwards five keyword arguments to the
generate function, whose keyword-only parameter list has four names.
Python binds keyword arguments by name before executing the callee body
and raises TypeError on an unexpected keyword, so the body (which
performs all gathering, streaming and printing) never runs. -/

def generateParams : List String :=
  ["commented_out", "model", "api_token_file", "api_endpoint"]

def generateCmdKwargs : List String :=
  ["commented_out", "model", "api_token_file", "api_endpoint", "show_off"]

def pyKeywordBind (params kwargs : List String) : Except String Unit :=
  match kwargs.filter (fun k => !(params.contains k)) with
  | [] => .ok ()
  | k :: _ =>
    .error ("TypeError: generate() got an unexpected keyword argument " ++ k)

/-! ## Lookback gathering (generate.py lines 34-43)

The repository history is modelled as the list of commit message texts,
newest first, as yielded by iter_commits; a commit count bound renders
the first count messages, each stripped and wrapped in a fenced block
ending in a blank line, joined by newline. -/

/-- One commit message as formatted inside the loop body. -/
def wrapCommit (msg : String) : String :=
  "```\n" ++ pyStrip msg ++ "\n```\n\n"

/-- The rendered lookback text for a given commit count. -/
def renderLookback (history : List String) (count : Nat) : String :=
  pyJoin "\n" ((history.take count).map wrapCommit)

/-- The counts attempted by the descending range from
MAX_LOOKBACK_COMMITS down to 3. -/
def lookbackCounts : List Nat := [10, 9, 8, 7, 6, 5, 4, 3]

/-- The descending-range search shared by the gathering loops: return
the first render within budget, and when every attempt overflows return
the final one (the loop variable holds the last render after the loop). -/
def firstFitOrLast (render : Nat → String) (budget : Nat) : List Nat → String
  | [] => ""
  | [c] => render c
  | c :: c2 :: rest =>
    if (render c).length ≤ budget then render c
    else firstFitOrLast render budget (c2 :: rest)

/-- Embedding of the lookback gatherer: shrink the commit count until the
render fits, then apply the last-resort truncation to the loop result. -/
def gatherLookback (history : List String) : String :=
  truncate (firstFitOrLast (renderLookback history) MAX_LOOKBACK_CHARS
    lookbackCounts) MAX_LOOKBACK_CHARS

/-! ## Staged diff gathering (generate.py lines 57-97)

The git and unidiff collaborators are modelled by the two observable
outputs the code consumes: the raw staged diff text at each context
width, and the list of per-file patch texts that PatchSet parses out of
that raw diff at each context width. -/

structure RepoDiff where
  rawDiff : Nat → String
  parsedFiles : Nat → List String

/-- Half of the total diff budget, the per-file threshold of phase 2
(integer division, generate.py line 80). -/
def MAX_SINGLE_FILE_CHARS : Nat := MAX_STAGED_DIFF_CHARS / 2

/-- Embedding of the per-file truncation helper: split the file patch on
newlines; a patch of at most 2 * keepLines + 1 lines is returned whole,
otherwise the first keepLines lines, a marker line and the last keepLines
lines are joined by newlines. -/
def truncatePatchedFile (fileDiff : String) (keepLines : Nat) : String :=
  let lines := splitLines fileDiff
  if lines.length ≤ 2 * keepLines + 1 then fileDiff
  else pyJoin "\n"
    (lines.take keepLines ++ ["... [truncated] ..."] ++ pyTakeLast keepLines lines)

/-- The phase-2 treatment of one parsed file patch (generate.py lines
88-91): a file patch longer than half the total budget is truncated,
any other file patch is kept whole. -/
def processFile (keepLines : Nat) (fileDiff : String) : String :=
  if MAX_SINGLE_FILE_CHARS < fileDiff.length then
    truncatePatchedFile fileDiff keepLines
  else fileDiff

/-- The context widths attempted by the descending range from
MAX_STAGED_DIFF_CONTEXT down to 2, used by both phases. -/
def diffContexts : List Nat := [9, 8, 7, 6, 5, 4, 3, 2]

/-- Phase 1: the first raw staged diff within the total budget. -/
def phase1 (repo : RepoDiff) : List Nat → Option String
  | [] => none
  | c :: rest =>
    if (repo.rawDiff c).length ≤ MAX_STAGED_DIFF_CHARS then some (repo.rawDiff c)
    else phase1 repo rest

/-- The phase-2 render at one context width: concatenation of the
per-file patches, each truncated when longer than half the budget,
with keep_lines = 2 * context. -/
def phase2render (repo : RepoDiff) (c : Nat) : String :=
  String.join ((repo.parsedFiles c).map (processFile (2 * c)))

/-- Phase 2: the first per-file-truncated concatenation within budget. -/
def phase2 (repo : RepoDiff) : List Nat → Option String
  | [] => none
  | c :: rest =>
    if (phase2render repo c).length ≤ MAX_STAGED_DIFF_CHARS then
      some (phase2render repo c)
    else phase2 repo rest

/-- Embedding of the staged diff gatherer: phase 1, then phase 2, then
last-resort truncation of the final phase-2 render (context width 2). -/
def getStagedDiff (repo : RepoDiff) : String :=
  match phase1 repo diffContexts with
  | some r => r
  | none =>
    match phase2 repo diffContexts with
    | some r => r
    | none => truncate (phase2render repo 2) MAX_STAGED_DIFF_CHARS

/-! ## Streaming response decoding (generate.py lines 166-178)

The response is modelled as the list of decoded lines; the json.loads
call together with the chunk field extraction is modelled by a parse
parameter: malformed for a line whose payload raises, chunk c for a
payload whose delta carries content c, with c empty when the content
field is absent or empty. -/

inductive ParseResult where
  | malformed
  | chunk (content : String)
deriving DecidableEq

inductive StreamResult where
  | ok (frags : List String)
  | protocolError (frags : List String)
deriving DecidableEq

/-- Embedding of the line loop of the streaming client: skip blank
lines, skip lines without the data prefix, stop at the DONE sentinel,
fail the sequence on a malformed payload, and yield each non-empty
content fragment in order. -/
def queryLLMLines (parse : String → ParseResult) : List String → StreamResult
  | [] => .ok []
  | line :: rest =>
    if line = "" then queryLLMLines parse rest
    else if pyStartsWith "data: " line then
      if pyRemovePrefix "data: " line = "[DONE]" then .ok []
      else
        match parse (pyRemovePrefix "data: " line) with
        | .malformed => .protocolError []
        | .chunk content =>
          if content = "" then queryLLMLines parse rest
          else
            match queryLLMLines parse rest with
            | .ok fs => .ok (content :: fs)
            | .protocolError fs => .protocolError (content :: fs)
    else queryLLMLines parse rest

/-- The fragment list as the specification describes it: the non-empty
content values of the parseable data-prefixed lines that occur strictly
before the first DONE sentinel, in input order.  Written from the words
of the spec, to be compared with the source embedding queryLLMLines. -/
def fragmentsSpec (parse : String → ParseResult) : List String → List String
  | [] => []
  | line :: rest =>
    if pyStartsWith "data: " line then
      if pyRemovePrefix "data: " line = "[DONE]" then []
      else
        match parse (pyRemovePrefix "data: " line) with
        | .malformed => fragmentsSpec parse rest
        | .chunk content =>
          if content = "" then fragmentsSpec parse rest
          else content :: fragmentsSpec parse rest
    else fragmentsSpec parse rest

/-- True when every data-prefixed line strictly before the first DONE
sentinel carries a parseable payload. -/
def okBeforeDone (parse : String → ParseResult) : List String → Bool
  | [] => true
  | line :: rest =>
    if pyStartsWith "data: " line then
      if pyRemovePrefix "data: " line = "[DONE]" then true
      else
        match parse (pyRemovePrefix "data: " line) with
        | .malformed => false
        | .chunk _ => okBeforeDone parse rest
    else okBeforeDone parse rest

/-- True when no line of the list is a DONE sentinel or a malformed
data line: every data-prefixed line parses and is not the sentinel. -/
def cleanDataLines (parse : String → ParseResult) : List String → Bool
  | [] => true
  | line :: rest =>
    (if pyStartsWith "data: " line then
      if pyRemovePrefix "data: " line = "[DONE]" then false
      else
        match parse (pyRemovePrefix "data: " line) with
        | .malformed => false
        | .chunk _ => true
    else true) && cleanDataLines parse rest

/-! ## Output of the generate action (generate.py lines 181-204)

The run of the action is modelled by the fragments the chunk iterator
yielded and an optional error text, the str of the exception caught by
the top-level handler; the printed standard output is assembled exactly
as the sequence of print calls produces it. -/

/-- The newline rewriting applied in commented-out mode. -/
def commentize (commentedOut : Bool) (s : String) : String :=
  if commentedOut then String.mk (commentChars s.data) else s

/-- Output produced before any error: the leading comment marker when in
commented-out mode, then each fragment, newline-rewritten in
commented-out mode, printed with no separator. -/
def generateBody (commentedOut : Bool) (frags : List String) : String :=
  (if commentedOut then "#" else "") ++
    String.join (frags.map (commentize commentedOut))

/-- The whole standard output of one generate run: the fragment output,
then on failure the ERROR line (newline-rewritten in commented-out mode,
printed with a trailing newline), then the final flushed newline. -/
def generateOutput (commentedOut : Bool) (frags : List String)
    (err : Option String) : String :=
  generateBody commentedOut frags ++
    (match err with
     | none => ""
     | some e => commentize commentedOut ("ERROR: " ++ e) ++ "\n") ++ "\n"

/-- The generate CLI command: bind the forwarded keyword arguments
against the parameter list of the generate function, then, only when
binding succeeds, run the action and produce its output. -/
def generateCmdRun (commentedOut : Bool) (frags : List String)
    (err : Option String) : Except String String :=
  match pyKeywordBind generateParams generateCmdKwargs with
  | .error e => .error e
  | .ok _ => .ok (generateOutput commentedOut frags err)

deriving instance DecidableEq for Except

/-! ## Concrete inputs used by counterexamples and witnesses -/

/-- A commit message of 850 characters. -/
def bigMsg : String := String.mk (List.replicate 850 'a')

/-- One 3000-character patch line. -/
def bigLine : String := String.mk (List.replicate 3000 'a')

/-- A nine-line file patch of 27008 characters: over half the diff
budget yet short enough in lines to be kept whole at context width 2. -/
def badFile : String := pyJoin "\n" (List.replicate 9 bigLine)

/-- A repository whose staged diff is small at every context width. -/
def demoRepo : RepoDiff where
  rawDiff := fun _ => "demo diff"
  parsedFiles := fun _ => ["demo diff"]

/-- A concrete stand-in for the json decoding of chunk payloads. -/
def demoParse : String → ParseResult := fun s =>
  if s = "hello-chunk" then .chunk "Hello"
  else if s = "world-chunk" then .chunk " world"
  else if s = "empty-chunk" then .chunk ""
  else .malformed

/-- A demo response: a blank line, framing noise, two content lines, a
content-free line, the sentinel, then a line that must never be read. -/
def demoLines : List String :=
  ["", ": keep-alive", "data: hello-chunk", "data: empty-chunk",
   "data: world-chunk", "data: [DONE]", "data: after-done"]

/-! ## Basic facts about the string primitives -/

theorem pyTake_length (s : String) (k : Nat) : (pyTake s k).length = min k s.length :=
  List.length_take k s.data

theorem pyTake_data (s : String) (k : Nat) : (pyTake s k).data = s.data.take k := rfl

theorem ellipsis_length : "...".length = 3 := rfl

/-! ## Facts about the truncation helper -/

theorem truncate_of_lt {s : String} {n : Nat} (h : s.length < n) :
    truncate s n = s :=
  if_pos h

theorem truncate_of_ge {s : String} {n : Nat} (h : n ≤ s.length) :
    truncate s n = pyTake s (n - 3) ++ "..." :=
  if_neg (by omega)

theorem truncate_length_of_ge {s : String} {n : Nat} (h3 : 3 ≤ n)
    (h : n ≤ s.length) : (truncate s n).length = n := by
  rw [truncate_of_ge h, String.length_append, pyTake_length, ellipsis_length]
  omega

theorem truncate_length_le {s : String} {n : Nat} (h3 : 3 ≤ n) :
    (truncate s n).length ≤ n := by
  rcases lt_or_ge s.length n with h | h
  · rw [truncate_of_lt h]
    omega
  · rw [truncate_length_of_ge h3 h]

theorem truncate_idem {s : String} {n : Nat} (h3 : 3 ≤ n) :
    truncate (truncate s n) n = truncate s n := by
  rcases lt_or_ge s.length n with h | h
  · rw [truncate_of_lt h, truncate_of_lt h]
  · rw [truncate_of_ge h]
    have hlen : (pyTake s (n - 3) ++ "...").length = n := by
      rw [String.length_append, pyTake_length, ellipsis_length]
      omega
    rw [truncate_of_ge (le_of_eq hlen.symm)]
    have hsd : s.data.length = s.length := rfl
    have htk : (s.data.take (n - 3)).length = n - 3 := by
      rw [List.length_take]
      omega
    have hdata : (pyTake s (n - 3) ++ "...").data =
        s.data.take (n - 3) ++ "...".data := String.data_append _ _
    have hpy : pyTake (pyTake s (n - 3) ++ "...") (n - 3) = pyTake s (n - 3) := by
      show String.mk ((pyTake s (n - 3) ++ "...").data.take (n - 3)) =
        String.mk (s.data.take (n - 3))
      rw [hdata, List.take_left' htk]
    rw [hpy]

/-- C9 (corrected): for every string s and budget n with 3 ≤ n, truncate
returns s unchanged whenever its length is strictly below n; when the
length reaches n the result is the first n - 3 characters followed by
the ellipsis marker, of length exactly n; in particular a string whose
length equals the budget exactly, although the shrink loops accept it as
fitting, still goes through the ellipsis branch; and truncate is
idempotent at a fixed budget.  The converse direction claimed by the
original sentence, that an unchanged result forces length below n, is
false, as the counterexample shows. -/
theorem truncate_spec (s : String) (n : Nat) (h : 3 ≤ n) :
    (s.length < n → truncate s n = s) ∧
    (n ≤ s.length →
      truncate s n = pyTake s (n - 3) ++ "..." ∧ (truncate s n).length = n) ∧
    (s.length = n → truncate s n = pyTake s (n - 3) ++ "...") ∧
    truncate (truncate s n) n = truncate s n :=
  ⟨fun hl => truncate_of_lt hl,
   fun hg => ⟨truncate_of_ge hg, truncate_length_of_ge h hg⟩,
   fun he => truncate_of_ge (le_of_eq he.symm),
   truncate_idem h⟩

/-- C9 counterexample: the three-character ellipsis string at budget 3
is returned unchanged although its length is not below the budget, so
the claimed equivalence between an unchanged result and a length
strictly below the budget fails. -/
theorem truncate_not_iff :
    truncate "..." 3 = "..." ∧ ¬ "...".length < 3 := by
  constructor
  · decide
  · decide

/-- C9 witness: the amended theorem applied at a concrete input whose
length reaches the budget. -/
theorem truncate_spec_witness :
    truncate "abcdef" 6 = pyTake "abcdef" 3 ++ "..." :=
  ((truncate_spec "abcdef" 6 (by decide)).2.1 (by decide)).1

/-! ## API key resolution -/

/-- C5 (corrected): when a token file is given its stripped contents are
returned unconditionally, even when they are empty, and the environment
is never consulted; when no token file is given the environment variable
decides: unset or empty raises the configuration error, any non-empty
value is returned.  So the error occurs exactly when no token file is
given and the environment yields no non-empty value; the original
claimed equivalence, that the error occurs whenever neither source
yields a non-empty value, fails on a whitespace-only token file. -/
theorem getApiKey_spec (file env : Option String) :
    (∀ c, file = some c → getApiKey file env = .ok (pyStrip c)) ∧
    (file = none → env = none → getApiKey file env = .error apiKeyErrorMsg) ∧
    (file = none → env = some "" → getApiKey file env = .error apiKeyErrorMsg) ∧
    (∀ v, file = none → env = some v → v ≠ "" →
      getApiKey file env = .ok v) := by
  refine ⟨?_, ?_, ?_, ?_⟩
  · intro c hc
    subst hc
    rfl
  · intro hf he
    subst hf
    subst he
    rfl
  · intro hf he
    subst hf
    subst he
    rfl
  · intro v hf he hv
    subst hf
    subst he
    simp [getApiKey, hv]

/-- C5 counterexample: a token file holding only whitespace together
with an unset environment variable: neither source yields a non-empty
value, yet no error is raised and the empty string is returned as the
key. -/
theorem getApiKey_counterexample :
    getApiKey (some " ") none = Except.ok "" := by
  decide

/-- C5 witness: the amended theorem applied with no token file and a
non-empty environment value. -/
theorem getApiKey_spec_witness :
    getApiKey none (some "secret") = Except.ok "secret" :=
  (getApiKey_spec none (some "secret")).2.2.2 "secret" rfl rfl (by decide)

/-! ## The CLI keyword mismatch -/

/-- C10 (confirmed): the generate command handler always forwards the
keyword show_off, which the parameter list of the generate function does
not accept, so for every invocation the keyword binding fails with a
TypeError before the action body runs and no output is ever produced. -/
theorem showOff_typeError_spec (commentedOut : Bool) (frags : List String)
    (err : Option String) :
    generateCmdRun commentedOut frags err =
      .error "TypeError: generate() got an unexpected keyword argument show_off" ∧
    (generateCmdRun commentedOut frags err).isOk = false := by
  constructor
  · rfl
  · rfl

/-! ## The descending-range search -/

theorem pyJoin_length_le_append (sep : String) :
    ∀ (l t : List String), (pyJoin sep l).length ≤ (pyJoin sep (l ++ t)).length
  | [], _ => by simp [pyJoin]
  | [x], t => by
    cases t with
    | nil => simp
    | cons y t' =>
      show x.length ≤ (x ++ sep ++ pyJoin sep (y :: t')).length
      rw [String.length_append, String.length_append]
      omega
  | x :: y :: l, t => by
    show (x ++ sep ++ pyJoin sep (y :: l)).length ≤
      (x ++ sep ++ pyJoin sep (y :: (l ++ t))).length
    rw [String.length_append, String.length_append, String.length_append,
      String.length_append]
    have hrec := pyJoin_length_le_append sep (y :: l) t
    rw [List.cons_append] at hrec
    omega

theorem renderLookback_mono (history : List String) {c c' : Nat} (h : c ≤ c') :
    (renderLookback history c).length ≤ (renderLookback history c').length := by
  have htk : history.take c = (history.take c').take c := by
    rw [List.take_take, min_eq_left h]
  obtain ⟨t, ht⟩ : history.take c <+: history.take c' := by
    rw [htk]
    exact List.take_prefix c _
  rw [renderLookback, renderLookback, ← ht, List.map_append]
  exact pyJoin_length_le_append _ _ _

theorem firstFitOrLast_all_gt (render : Nat → String) (budget : Nat) :
    ∀ (l : List Nat) (c : Nat), (∀ d ∈ l, budget < (render d).length) →
      firstFitOrLast render budget (l ++ [c]) = render c
  | [], _, _ => rfl
  | a :: l, c, h => by
    have ha : budget < (render a).length := h a (List.mem_cons_self a l)
    have step : firstFitOrLast render budget ((a :: l) ++ [c]) =
        firstFitOrLast render budget (l ++ [c]) := by
      cases l with
      | nil =>
        show (if (render a).length ≤ budget then render a else _) = _
        rw [if_neg (by omega)]
        rfl
      | cons b l' =>
        show (if (render a).length ≤ budget then render a else _) = _
        rw [if_neg (by omega)]
        rfl
    rw [step]
    exact firstFitOrLast_all_gt render budget l c
      (fun d hd => h d (List.mem_cons_of_mem a hd))

theorem firstFitOrLast_first (render : Nat → String) (budget : Nat) :
    ∀ (l1 : List Nat) (c : Nat) (l2 : List Nat),
      (∀ d ∈ l1, budget < (render d).length) → (render c).length ≤ budget →
      firstFitOrLast render budget (l1 ++ c :: l2) = render c
  | [], c, l2, _, hc => by
    cases l2 with
    | nil => rfl
    | cons b l' =>
      show (if (render c).length ≤ budget then render c else _) = render c
      rw [if_pos hc]
  | a :: l1, c, l2, h, hc => by
    have ha : budget < (render a).length := h a (List.mem_cons_self a l1)
    have step : firstFitOrLast render budget ((a :: l1) ++ c :: l2) =
        firstFitOrLast render budget (l1 ++ c :: l2) := by
      cases l1 with
      | nil =>
        show (if (render a).length ≤ budget then render a else _) = _
        rw [if_neg (by omega)]
        rfl
      | cons b l' =>
        show (if (render a).length ≤ budget then render a else _) = _
        rw [if_neg (by omega)]
        rfl
    rw [step]
    exact firstFitOrLast_first render budget l1 c l2
      (fun d hd => h d (List.mem_cons_of_mem a hd)) hc

/-! ## The lookback gatherer -/

/-- C1 (corrected): the lookback budget in the code is
MAX_LOOKBACK_CHARS = 80 * 10 * 10 = 8000 characters, not 800.  With that
budget the claim holds: the gathered text never exceeds 8000 characters;
the first commit count from 10 down to 3 whose render fits the budget is
returned, unchanged whenever its length is strictly below the budget;
and when even the count-3 render exceeds the budget the result is the
count-3 render hard-truncated to exactly 8000 characters, the first
7997 characters plus the ellipsis marker. -/
theorem gatherLookback_spec (history : List String) :
    (gatherLookback history).length ≤ MAX_LOOKBACK_CHARS ∧
    (∀ l1 c l2, lookbackCounts = l1 ++ c :: l2 →
      (∀ d ∈ l1, MAX_LOOKBACK_CHARS < (renderLookback history d).length) →
      (renderLookback history c).length < MAX_LOOKBACK_CHARS →
      gatherLookback history = renderLookback history c) ∧
    (MAX_LOOKBACK_CHARS < (renderLookback history 3).length →
      gatherLookback history =
        truncate (renderLookback history 3) MAX_LOOKBACK_CHARS ∧
      (gatherLookback history).length = MAX_LOOKBACK_CHARS) := by
  refine ⟨truncate_length_le (by decide), ?_, ?_⟩
  · intro l1 c l2 hdecomp hall hc
    unfold gatherLookback
    rw [hdecomp, firstFitOrLast_first _ _ l1 c l2 hall (le_of_lt hc)]
    exact truncate_of_lt hc
  · intro h3big
    have hmin : ∀ d ∈ lookbackCounts, 3 ≤ d := by decide
    have hall : ∀ d ∈ lookbackCounts,
        MAX_LOOKBACK_CHARS < (renderLookback history d).length :=
      fun d hd =>
        lt_of_lt_of_le h3big (renderLookback_mono history (hmin d hd))
    have hdecomp : lookbackCounts = [10, 9, 8, 7, 6, 5, 4] ++ [3] := rfl
    have hloop : firstFitOrLast (renderLookback history) MAX_LOOKBACK_CHARS
        lookbackCounts = renderLookback history 3 := by
      rw [hdecomp]
      exact firstFitOrLast_all_gt _ _ _ 3
        (fun d hd => hall d (by rw [hdecomp]; exact List.mem_append_left _ hd))
    refine ⟨?_, ?_⟩
    · unfold gatherLookback
      rw [hloop]
    · unfold gatherLookback
      rw [hloop]
      exact truncate_length_of_ge (by decide) (le_of_lt h3big)

/-- C1 counterexample: a history whose newest commit message is 850
characters long renders, at every attempted count, to 860 characters;
that fits the 8000-character budget of the code, is returned whole, and
exceeds the 800-character budget the claim states. -/
theorem lookback_budget_not_800 : 800 < (gatherLookback [bigMsg]).length := by
  decide

/-- C1 witness: on a one-commit history the count-10 attempt fits and is
returned unchanged. -/
theorem gatherLookback_spec_witness :
    gatherLookback ["init"] = renderLookback ["init"] 10 :=
  (gatherLookback_spec ["init"]).2.1 [] 10 [9, 8, 7, 6, 5, 4, 3] rfl
    (by decide) (by decide)

/-! ## The streaming client -/

theorem fragmentsSpec_ne_empty (parse : String → ParseResult)
    (lines : List String) : ∀ f ∈ fragmentsSpec parse lines, f ≠ "" := by
  induction lines with
  | nil =>
    intro f hf
    simp [fragmentsSpec] at hf
  | cons line rest ih =>
    intro f hf
    simp only [fragmentsSpec] at hf
    split at hf
    · split at hf
      · simp at hf
      · split at hf
        · exact ih f hf
        · rename_i content hp
          split at hf
          · exact ih f hf
          · rename_i hne
            rcases List.mem_cons.mp hf with hfc | hfr
            · rw [hfc]
              exact hne
            · exact ih f hfr
    · exact ih f hf

theorem queryLLMLines_eq_ok (parse : String → ParseResult)
    (lines : List String) (h : okBeforeDone parse lines = true) :
    queryLLMLines parse lines = .ok (fragmentsSpec parse lines) := by
  induction lines with
  | nil => rfl
  | cons line rest ih =>
    by_cases hempty : line = ""
    · subst hempty
      have hsw : pyStartsWith "data: " "" = false := rfl
      simp only [okBeforeDone, hsw, Bool.false_eq_true, if_false] at h
      simp only [queryLLMLines, fragmentsSpec, hsw, Bool.false_eq_true, if_false,
        if_pos rfl]
      exact ih h
    · by_cases hsw : pyStartsWith "data: " line
      · by_cases hdone : pyRemovePrefix "data: " line = "[DONE]"
        · simp only [queryLLMLines, fragmentsSpec, hempty, hsw, hdone, if_true,
            if_false, if_pos rfl]
        · cases hp : parse (pyRemovePrefix "data: " line) with
          | malformed =>
            rw [okBeforeDone, if_pos hsw, if_neg hdone, hp] at h
            cases h
          | chunk content =>
            rw [okBeforeDone, if_pos hsw, if_neg hdone, hp] at h
            by_cases hc : content = ""
            · simp only [queryLLMLines, fragmentsSpec, hempty, hsw, hdone, hp, hc,
                if_true, if_false, if_pos rfl]
              exact ih h
            · simp only [queryLLMLines, fragmentsSpec, hempty, hsw, hdone, hp, hc,
                if_true, if_false]
              rw [ih h]
      · have hsw' : pyStartsWith "data: " line = false := by
          revert hsw
          cases pyStartsWith "data: " line <;> simp
        rw [okBeforeDone, if_neg (by rw [hsw']; exact Bool.false_ne_true)] at h
        simp only [queryLLMLines, fragmentsSpec, hempty, hsw', Bool.false_eq_true,
          if_false]
        exact ih h

/-- C4 (confirmed): for a response whose data-prefixed lines before the
first DONE sentinel all carry parseable payloads, the yielded fragments
are exactly the non-empty content values of the data-prefixed lines
strictly before the sentinel, in order; blank lines and unprefixed lines
are skipped, no empty fragment is yielded, and the sentinel stops the
read, so nothing after it is yielded. -/
theorem queryLLMLines_ok_spec (parse : String → ParseResult)
    (lines : List String) (h : okBeforeDone parse lines = true) :
    queryLLMLines parse lines = .ok (fragmentsSpec parse lines) ∧
    ∀ f ∈ fragmentsSpec parse lines, f ≠ "" :=
  ⟨queryLLMLines_eq_ok parse lines h, fragmentsSpec_ne_empty parse lines⟩

/-- C4 witness: a blank line, a framing comment, two content-carrying
data lines, a content-free data line, the sentinel, then a line that
would fail to parse: exactly the two fragments come out, in order. -/
theorem queryLLMLines_ok_witness :
    queryLLMLines demoParse demoLines = .ok ["Hello", " world"] := by
  rw [(queryLLMLines_ok_spec demoParse demoLines (by decide)).1]
  decide

/-- C6 (confirmed): when the lines before a malformed data line carry no
sentinel and no malformed payload, the client yields exactly the valid
fragments of those lines and then fails the sequence with the protocol
error; the already-yielded fragments are retained in the failure
outcome, whatever follows the malformed line. -/
theorem queryLLMLines_malformed_spec (parse : String → ParseResult)
    (pre : List String) (bad : String) (rest : List String)
    (hpre : cleanDataLines parse pre = true)
    (hsw : pyStartsWith "data: " bad = true)
    (hdone : ¬ pyRemovePrefix "data: " bad = "[DONE]")
    (hmal : parse (pyRemovePrefix "data: " bad) = .malformed) :
    queryLLMLines parse (pre ++ bad :: rest) =
      .protocolError (fragmentsSpec parse pre) := by
  induction pre with
  | nil =>
    have hbne : ¬ bad = "" := by
      intro hb
      rw [hb] at hsw
      exact absurd hsw (by decide)
    simp only [List.nil_append, queryLLMLines, fragmentsSpec, hbne, hsw, hdone,
      hmal, if_true, if_false]
  | cons line pre' ih =>
    simp only [cleanDataLines, Bool.and_eq_true] at hpre
    obtain ⟨hline, hpre'⟩ := hpre
    have ih' := ih hpre'
    by_cases hempty : line = ""
    · subst hempty
      have hsw0 : pyStartsWith "data: " "" = false := rfl
      simp only [hsw0, Bool.false_eq_true, if_false] at hline
      simp only [List.cons_append, queryLLMLines, fragmentsSpec, hsw0,
        Bool.false_eq_true, if_false, if_pos rfl]
      exact ih'
    · by_cases hsw1 : pyStartsWith "data: " line
      · rw [if_pos hsw1] at hline
        by_cases hdone1 : pyRemovePrefix "data: " line = "[DONE]"
        · rw [if_pos hdone1] at hline
          cases hline
        · rw [if_neg hdone1] at hline
          cases hp : parse (pyRemovePrefix "data: " line) with
          | malformed =>
            rw [hp] at hline
            cases hline
          | chunk content =>
            by_cases hc : content = ""
            · simp only [List.cons_append, queryLLMLines, fragmentsSpec, hempty,
                hsw1, hdone1, hp, hc, if_true, if_false, if_pos rfl]
              exact ih'
            · simp only [List.cons_append, queryLLMLines, fragmentsSpec, hempty,
                hsw1, hdone1, hp, hc, if_true, if_false]
              have ih2 : queryLLMLines parse (pre'.append (bad :: rest)) =
                  StreamResult.protocolError (fragmentsSpec parse pre') := ih'
              rw [ih2]
      · have hsw1' : pyStartsWith "data: " line = false := by
          revert hsw1
          cases pyStartsWith "data: " line <;> simp
        simp only [List.cons_append, queryLLMLines, fragmentsSpec, hempty, hsw1',
          Bool.false_eq_true, if_false]
        exact ih'

/-- C6 witness: one valid content line followed by a line whose payload
does not parse: the one fragment is yielded, then the protocol error. -/
theorem queryLLMLines_malformed_witness :
    queryLLMLines demoParse ["data: hello-chunk", "data: not-json"] =
      .protocolError ["Hello"] := by
  have h := queryLLMLines_malformed_spec demoParse ["data: hello-chunk"]
    "data: not-json" [] (by decide) (by decide) (by decide) (by decide)
  have hl : (["data: hello-chunk"] ++ ["data: not-json"] : List String) =
      ["data: hello-chunk", "data: not-json"] := rfl
  rw [hl] at h
  rw [h]
  decide

/-! ## Output shape of the generate action -/

theorem pyStartsWith_append (p s : String) : pyStartsWith p (p ++ s) = true := by
  rw [pyStartsWith, List.isPrefixOf_iff_prefix, String.data_append]
  exact List.prefix_append _ _

theorem pyEndsWith_append (suf s : String) : pyEndsWith suf (s ++ suf) = true := by
  rw [pyEndsWith, List.isSuffixOf_iff_suffix, String.data_append]
  exact List.suffix_append _ _

/-- C7 (confirmed): in commented-out mode the output starts with the
comment marker printed before anything else, every newline inside a
fragment or inside error text is rewritten to a newline followed by the
marker, and the run always ends with a flushed newline; on the fragment
sequence Hello then newline-World the full output is the leading marker,
then the text Hello, newline, marker, World, then the trailing
newline. -/
theorem generateOutput_commented_spec :
    (∀ frags err, pyStartsWith "#" (generateOutput true frags err) = true) ∧
    (∀ frags err, pyEndsWith "\n" (generateOutput true frags err) = true) ∧
    generateOutput true ["Hello", "\nWorld"] none = "#" ++ "Hello\n#World" ++ "\n" := by
  refine ⟨?_, ?_, by decide⟩
  · intro frags err
    cases err with
    | none =>
      have h1 : generateOutput true frags none =
          "#" ++ (String.join (frags.map (commentize true)) ++ ("" ++ "\n")) := by
        rw [generateOutput, generateBody]
        simp [String.append_assoc]
      rw [h1]
      exact pyStartsWith_append _ _
    | some e =>
      have h1 : generateOutput true frags (some e) =
          "#" ++ (String.join (frags.map (commentize true)) ++
            ((commentize true ("ERROR: " ++ e) ++ "\n") ++ "\n")) := by
        rw [generateOutput, generateBody]
        simp [String.append_assoc]
      rw [h1]
      exact pyStartsWith_append _ _
  · intro frags err
    rw [generateOutput.eq_def]
    exact pyEndsWith_append _ _

/-- C8 (confirmed): whatever error text the top-level handler catches,
the run output is the fragment output already printed, unmodified,
followed by the ERROR line built from the error description (rewritten
for comment mode when active) and the final newline; in particular the
fragment output is a prefix of the failing output, so already-streamed
partial output is never erased, and the error is rendered as output
rather than propagated. -/
theorem generate_error_spec (commentedOut : Bool) (frags : List String)
    (e : String) :
    generateOutput commentedOut frags (some e) =
      generateBody commentedOut frags ++
        (commentize commentedOut ("ERROR: " ++ e) ++ "\n") ++ "\n" ∧
    generateOutput commentedOut frags none =
      generateBody commentedOut frags ++ "\n" ∧
    pyStartsWith (generateBody commentedOut frags)
      (generateOutput commentedOut frags (some e)) = true := by
  refine ⟨rfl, ?_, ?_⟩
  · rw [generateOutput]
    simp
  · have h1 : generateOutput commentedOut frags (some e) =
        generateBody commentedOut frags ++
          ((commentize commentedOut ("ERROR: " ++ e) ++ "\n") ++ "\n") := by
      rw [generateOutput]
      simp [String.append_assoc]
    rw [h1]
    exact pyStartsWith_append _ _

/-! ## The staged diff gatherer -/

theorem phase1_some_le (repo : RepoDiff) (l : List Nat) (r : String)
    (h : phase1 repo l = some r) : r.length ≤ MAX_STAGED_DIFF_CHARS := by
  induction l with
  | nil => cases h
  | cons c rest ih =>
    simp only [phase1] at h
    split at h
    · rename_i hc
      cases h
      exact hc
    · exact ih h

theorem phase2_some_le (repo : RepoDiff) (l : List Nat) (r : String)
    (h : phase2 repo l = some r) : r.length ≤ MAX_STAGED_DIFF_CHARS := by
  induction l with
  | nil => cases h
  | cons c rest ih =>
    simp only [phase2] at h
    split at h
    · rename_i hc
      cases h
      exact hc
    · exact ih h

theorem phase2_none_gt (repo : RepoDiff) (l : List Nat)
    (h : phase2 repo l = none) :
    ∀ c ∈ l, MAX_STAGED_DIFF_CHARS < (phase2render repo c).length := by
  induction l with
  | nil =>
    intro c hc
    cases hc
  | cons a rest ih =>
    simp only [phase2] at h
    split at h
    · cases h
    · rename_i ha
      intro c hc
      rcases List.mem_cons.mp hc with rfl | hr
      · omega
      · exact ih h c hr

theorem phase1_first (repo : RepoDiff) :
    ∀ (l1 : List Nat) (c : Nat) (l2 : List Nat),
      (∀ d ∈ l1, MAX_STAGED_DIFF_CHARS < (repo.rawDiff d).length) →
      (repo.rawDiff c).length ≤ MAX_STAGED_DIFF_CHARS →
      phase1 repo (l1 ++ c :: l2) = some (repo.rawDiff c)
  | [], c, l2, _, hc => by
    simp only [List.nil_append, phase1, if_pos hc]
  | a :: l1, c, l2, h, hc => by
    have ha := h a (List.mem_cons_self a l1)
    simp only [List.cons_append, phase1]
    rw [if_neg (by omega)]
    exact phase1_first repo l1 c l2
      (fun d hd => h d (List.mem_cons_of_mem a hd)) hc

/-- C2 (confirmed): the gathered staged diff never exceeds the
40960-character budget; the first context width from 9 down to 2 whose
raw diff fits the budget is returned unchanged by phase 1; when phase 1
fails, a phase-2 concatenation of per-file-truncated patches is returned
exactly when it fits the budget; and when phase 2 also exhausts every
width, the result is the context-width-2 phase-2 render hard-truncated
to exactly the budget with the ellipsis marker. -/
theorem getStagedDiff_spec (repo : RepoDiff) :
    (getStagedDiff repo).length ≤ MAX_STAGED_DIFF_CHARS ∧
    (∀ l1 c l2, diffContexts = l1 ++ c :: l2 →
      (∀ d ∈ l1, MAX_STAGED_DIFF_CHARS < (repo.rawDiff d).length) →
      (repo.rawDiff c).length ≤ MAX_STAGED_DIFF_CHARS →
      getStagedDiff repo = repo.rawDiff c) ∧
    (∀ r, phase1 repo diffContexts = none → phase2 repo diffContexts = some r →
      getStagedDiff repo = r ∧ r.length ≤ MAX_STAGED_DIFF_CHARS) ∧
    (phase1 repo diffContexts = none → phase2 repo diffContexts = none →
      getStagedDiff repo = truncate (phase2render repo 2) MAX_STAGED_DIFF_CHARS ∧
      (getStagedDiff repo).length = MAX_STAGED_DIFF_CHARS) := by
  refine ⟨?_, ?_, ?_, ?_⟩
  · cases h1 : phase1 repo diffContexts with
    | some r =>
      rw [getStagedDiff, h1]
      exact phase1_some_le repo _ r h1
    | none =>
      cases h2 : phase2 repo diffContexts with
      | some r =>
        rw [getStagedDiff, h1, h2]
        exact phase2_some_le repo _ r h2
      | none =>
        rw [getStagedDiff, h1, h2]
        exact truncate_length_le (by decide)
  · intro l1 c l2 hdecomp hall hc
    rw [getStagedDiff, hdecomp, phase1_first repo l1 c l2 hall hc]
  · intro r h1 h2
    refine ⟨?_, phase2_some_le repo _ r h2⟩
    rw [getStagedDiff, h1, h2]
  · intro h1 h2
    have hgt := phase2_none_gt repo _ h2 2 (by decide)
    refine ⟨?_, ?_⟩
    · rw [getStagedDiff, h1, h2]
    · rw [getStagedDiff, h1, h2]
      exact truncate_length_of_ge (by decide) (le_of_lt hgt)

/-- C2 witness: a repository whose raw staged diff is already small is
returned whole at the first context width. -/
theorem getStagedDiff_spec_witness : getStagedDiff demoRepo = "demo diff" :=
  (getStagedDiff_spec demoRepo).2.1 [] 9 [8, 7, 6, 5, 4, 3, 2] rfl (by decide)
    (by decide)

/-! ## Splitting and joining facts for the per-file truncation -/

theorem splitChars_ne_nil : ∀ (l : List Char), splitChars l ≠ []
  | [] => by simp [splitChars]
  | c :: rest => by
    simp only [splitChars]
    cases h : splitChars rest with
    | nil => simp
    | cons hd tl =>
      show ¬ (if c = '\n' then [] :: hd :: tl else (c :: hd) :: tl) = []
      by_cases hc : c = '\n'
      · simp [hc]
      · simp [hc]

theorem splitChars_cons_nl (rest : List Char) :
    splitChars ('\n' :: rest) = [] :: splitChars rest := by
  simp only [splitChars]
  cases h : splitChars rest with
  | nil => exact absurd h (splitChars_ne_nil rest)
  | cons hd tl => simp

theorem splitChars_append_no_nl :
    ∀ (l : List Char), (∀ c ∈ l, c ≠ '\n') →
      ∀ (xs : List Char) (h : List Char) (t : List (List Char)),
      splitChars xs = h :: t → splitChars (l ++ xs) = (l ++ h) :: t
  | [], _, xs, h, t, hx => by simpa using hx
  | c :: l, hl, xs, h, t, hx => by
    have hc : c ≠ '\n' := hl c (List.mem_cons_self c l)
    have hrec := splitChars_append_no_nl l
      (fun d hd => hl d (List.mem_cons_of_mem c hd)) xs h t hx
    rw [List.cons_append]
    simp only [splitChars]
    rw [hrec]
    simp [hc]

theorem splitChars_no_nl (l : List Char) (hl : ∀ c ∈ l, c ≠ '\n') :
    splitChars l = [l] := by
  have h := splitChars_append_no_nl l hl [] [] [] rfl
  simpa using h

theorem splitLines_pyJoin :
    ∀ (ss : List String), ss ≠ [] → (∀ s ∈ ss, ∀ c ∈ s.data, c ≠ '\n') →
      splitLines (pyJoin "\n" ss) = ss
  | [], h, _ => absurd rfl h
  | [s], _, hnl => by
    rw [pyJoin, splitLines, splitChars_no_nl s.data (hnl s (by simp))]
    simp only [List.map_cons, List.map_nil]
  | s :: s2 :: ss, _, hnl => by
    have hs : ∀ c ∈ s.data, c ≠ '\n' := hnl s (by simp)
    have ih := splitLines_pyJoin (s2 :: ss) (by simp)
      (fun x hx => hnl x (List.mem_cons_of_mem s hx))
    rw [pyJoin, splitLines]
    have hdata : (s ++ "\n" ++ pyJoin "\n" (s2 :: ss)).data =
        s.data ++ ('\n' :: (pyJoin "\n" (s2 :: ss)).data) := by
      rw [String.data_append, String.data_append]
      simp
    rw [hdata]
    cases hsc : splitChars (pyJoin "\n" (s2 :: ss)).data with
    | nil => exact absurd hsc (splitChars_ne_nil _)
    | cons hd tl =>
      have hstep := splitChars_append_no_nl s.data hs
        ('\n' :: (pyJoin "\n" (s2 :: ss)).data) [] (hd :: tl)
        (by rw [splitChars_cons_nl, hsc])
      rw [hstep]
      have ihm : List.map String.mk (hd :: tl) = s2 :: ss := by
        rw [splitLines, hsc] at ih
        exact ih
      rw [List.map_cons, List.append_nil, ihm,
        show String.mk s.data = s from rfl]

theorem pyJoin_length (sep : String) :
    ∀ (ss : List String), (pyJoin sep ss).length =
      (ss.map String.length).sum + (ss.length - 1) * sep.length
  | [] => by simp [pyJoin]
  | [x] => by simp [pyJoin]
  | x :: y :: ss => by
    rw [pyJoin, String.length_append, String.length_append,
      pyJoin_length sep (y :: ss)]
    simp only [List.map_cons, List.sum_cons, List.length_cons,
      Nat.add_sub_cancel]
    have hm : (ss.length + 1) * sep.length =
        ss.length * sep.length + sep.length := Nat.succ_mul _ _
    omega

/-! ## The phase-2 per-file truncation -/

/-- C3 (corrected): in phase 2 at context width c, an individual file
patch is replaced only when its rendered length exceeds half the total
budget AND its newline-split line count exceeds 2 * (2 * c) + 1; the
replacement keeps the first 2 * c lines, then the marker line, which the
code spells with spaces around the bracketed word, then the last 2 * c
lines, joined by newlines.  A patch whose length does not exceed half
the budget, or whose line count is at most 2 * (2 * c) + 1 lines (not:
fewer than 2 * c * 2 + 1), is kept whole even when its rendered length
exceeds half the budget. -/
theorem processFile_spec (c : Nat) (f : String) :
    (f.length ≤ MAX_SINGLE_FILE_CHARS → processFile (2 * c) f = f) ∧
    ((splitLines f).length ≤ 2 * (2 * c) + 1 → processFile (2 * c) f = f) ∧
    (MAX_SINGLE_FILE_CHARS < f.length →
      2 * (2 * c) + 1 < (splitLines f).length →
      processFile (2 * c) f = pyJoin "\n" ((splitLines f).take (2 * c) ++
        ["... [truncated] ..."] ++ pyTakeLast (2 * c) (splitLines f))) := by
  refine ⟨?_, ?_, ?_⟩
  · intro h
    rw [processFile, if_neg (by omega)]
  · intro h
    rw [processFile]
    split
    · simp only [truncatePatchedFile]
      rw [if_pos h]
    · rfl
  · intro h1 h2
    rw [processFile, if_pos h1]
    simp only [truncatePatchedFile]
    rw [if_neg (by omega)]

/-- C3 witness: a small two-line patch is kept whole at context 2. -/
theorem processFile_spec_witness : processFile (2 * 2) "+a\n-b" = "+a\n-b" :=
  (processFile_spec 2 "+a\n-b").2.1 (by decide)

theorem bigLine_length : bigLine.length = 3000 :=
  List.length_replicate 3000 'a'

theorem bigLine_no_nl : ∀ c ∈ bigLine.data, c ≠ '\n' := by
  intro c hc
  have hd : bigLine.data = List.replicate 3000 'a' := rfl
  rw [hd] at hc
  rw [List.eq_of_mem_replicate hc]
  decide

theorem badFile_length : badFile.length = 27008 := by
  rw [badFile, pyJoin_length]
  have hsep : ("\n" : String).length = 1 := rfl
  rw [List.map_replicate, bigLine_length, hsep]
  simp [List.sum_replicate]

theorem splitLines_badFile : splitLines badFile = List.replicate 9 bigLine := by
  rw [badFile]
  apply splitLines_pyJoin
  · simp
  · intro s hs
    rw [List.eq_of_mem_replicate hs]
    exact bigLine_no_nl

theorem processFile_keeps_badFile : processFile (2 * 2) badFile = badFile := by
  have hover : MAX_SINGLE_FILE_CHARS < badFile.length := by
    rw [badFile_length]
    decide
  have hlines : (splitLines badFile).length ≤ 2 * (2 * 2) + 1 := by
    rw [splitLines_badFile, List.length_replicate]
  rw [processFile, if_pos hover]
  simp only [truncatePatchedFile]
  rw [if_pos hlines]

theorem claimed_replacement_length :
    (pyJoin "\n" ((splitLines badFile).take (2 * 2) ++ ["...[truncated]..."] ++
      pyTakeLast (2 * 2) (splitLines badFile))).length = 24025 := by
  rw [splitLines_badFile]
  have htake : (List.replicate 9 bigLine).take (2 * 2) =
      List.replicate 4 bigLine := by
    rw [List.take_replicate]
    norm_num
  have hlast : pyTakeLast (2 * 2) (List.replicate 9 bigLine) =
      List.replicate 4 bigLine := by
    rw [pyTakeLast, if_neg (by omega), List.length_replicate,
      List.drop_replicate]
  rw [htake, hlast, pyJoin_length]
  have hsep : ("\n" : String).length = 1 := rfl
  have hmark : ("...[truncated]..." : String).length = 17 := rfl
  simp [List.sum_replicate, List.sum_append, bigLine_length, hsep, hmark]

/-- C3 counterexample: at context width 2 a nine-line file patch of
27008 characters exceeds half the budget (20480 characters), yet the
code keeps it whole, because its line count 9 does not exceed
2 * (2 * 2) + 1 = 9; it is not replaced by the claimed form of first
2 * 2 lines, marker and last 2 * 2 lines, which here would be a
24025-character string. -/
theorem processFile_counterexample :
    MAX_SINGLE_FILE_CHARS < badFile.length ∧
    processFile (2 * 2) badFile = badFile ∧
    (badFile == pyJoin "\n" ((splitLines badFile).take (2 * 2) ++
      ["...[truncated]..."] ++ pyTakeLast (2 * 2) (splitLines badFile))) =
      false := by
  refine ⟨?_, processFile_keeps_badFile, ?_⟩
  · rw [badFile_length]
    decide
  · rw [beq_eq_false_iff_ne]
    intro heq
    have h1 := badFile_length
    rw [heq, claimed_replacement_length] at h1
    cases h1

end LlmCommitMsg
